import Mathlib

/-!
Verification of the liquidity decision engine of this repository.

The Go sources are embedded shallowly:
* `float32` ratio arithmetic is modelled exactly over `ℚ`;
* `btcutil.Amount` (an `int64`) is modelled as `ℤ`; the one place where the
  code converts through `uint64` (`ppmToSat`) keeps the wrap-around
  explicitly;
* Go maps keyed by channel id / peer vertex are modelled as association
  lists (only membership and lookup are observed by the code under proof);
* fallible operations return `Except Err`, and the external collaborators
  (server restrictions, swap listing, channel listing, quotes) are passed in
  as explicit environment values so that which external calls happen can be
  stated.
-/

namespace Loop

/-!
`btcutil.Amount` (an int64 number of satoshis) is written `ℤ` throughout;
`lnwire.ShortChannelID` (observed only through `ToUint64`) and
`route.Vertex` (a peer public key, observed only through equality) are both
written `ℕ`.
-/

/-- Truncation of a rational towards zero: Go's `float -> integer`
conversion, used where the code casts a `float32` to `btcutil.Amount`. -/
def ratTrunc (q : ℚ) : ℤ :=
  if q < 0 then Rat.ceil q else Rat.floor q

/-- `Action` from suggestions.go: the action that the manager recommends. -/
inductive Action where
  | ActionNone
  | ActionLoopOut
  | ActionLoopIn
deriving DecidableEq, Repr

/-- `Reason` from suggestions.go: additional reasoning for the action. -/
inductive Reason where
  | ReasonImbalanced
  | ReasonNoCapacity
  | ReasonNoSurplus
  | ReasonLiquidityOk
  | ReasonMinimumAmount
deriving DecidableEq, Repr

/-- `swap.Type`: the two swap types used by the liquidity package. -/
inductive SwapType where
  | typeIn
  | typeOut
deriving DecidableEq, Repr

/-- `loopdb.StateType`: classification of swap states. -/
inductive SwapStateType where
  | pending
  | success
  | fail
deriving DecidableEq, Repr

/-- Modelled from the spec: `loopdb.SwapState` is not under src/ (only its
callers are).  The spec distinguishes pending states from terminal states and
singles out the off-chain-payment-failure state; we model the states named by
the spec and tests: the pending states, success, and several distinct failure
states so that "other terminal states" is expressible. -/
inductive SwapState where
  | initiated
  | htlcPublished
  | preimageRevealed
  | invoiceSettled
  | success
  | failOffchainPayments
  | failTimeout
  | failInsufficientValue
  | failSweepTimeout
deriving DecidableEq, Repr

/-- Modelled from the spec: classification of `SwapState` into
pending/success/fail (`loopdb.SwapState.Type()` is not under src/).  Swaps
that have not reached a terminal state are pending. -/
def SwapState.type : SwapState → SwapStateType
  | .initiated => .pending
  | .htlcPublished => .pending
  | .preimageRevealed => .pending
  | .invoiceSettled => .pending
  | .success => .success
  | .failOffchainPayments => .fail
  | .failTimeout => .fail
  | .failInsufficientValue => .fail
  | .failSweepTimeout => .fail

/-- `balances` from ratio_rule.go's companion file: the balance state of one
channel (or an aggregate), with the short channel id that owns it. -/
structure balances where
  capacity : ℤ
  incoming : ℤ
  outgoing : ℤ
  channelID : ℕ
deriving DecidableEq, Repr

/-- `balances.incomingRatio`: ratio of incoming to total capacity. -/
def balances.incomingRatio (b : balances) : ℚ :=
  (b.incoming : ℚ) / (b.capacity : ℚ)

/-- `balances.outgoingRatio`: ratio of outgoing to total capacity. -/
def balances.outgoingRatio (b : balances) : ℚ :=
  (b.outgoing : ℚ) / (b.capacity : ℚ)

/-- `shouldSwap` from ratio_rule.go: examine a set of balances and the
required thresholds and decide which action to take and why. -/
def shouldSwap (b : balances) (minInbound minOutbound : ℚ) :
    Action × Reason :=
  if b.capacity = 0 then (.ActionNone, .ReasonNoCapacity)
  else
    let currentInbound := b.incomingRatio
    let currentOutbound := b.outgoingRatio
    let inboundDeficit := currentInbound < minInbound
    let outboundDeficit := currentOutbound < minOutbound
    if inboundDeficit ∧ outboundDeficit then (.ActionNone, .ReasonNoSurplus)
    else if inboundDeficit ∧ ¬outboundDeficit then
      (.ActionLoopOut, .ReasonImbalanced)
    else if ¬inboundDeficit ∧ outboundDeficit then
      (.ActionLoopIn, .ReasonImbalanced)
    else (.ActionNone, .ReasonLiquidityOk)

/-- `calculateSwapRatio` from ratio_rule.go: the ratio of capacity to shift
from the surplus side to the deficit side. -/
def calculateSwapRatio (deficitCurrent deficitMinimum
    surplusCurrent surplusMinimum : ℚ) : ℚ :=
  let required := deficitMinimum - deficitCurrent
  let available := surplusCurrent - surplusMinimum
  if available ≤ required then available / 2
  else
    let midpoint := (deficitMinimum + (1 - surplusMinimum)) / 2
    let midpointDelta := midpoint - deficitCurrent
    if midpointDelta ≤ available then midpointDelta
    else required

/-- `channelSurplus` from suggestions.go. -/
structure channelSurplus where
  amount : ℤ
  channel : ℕ
deriving DecidableEq, Repr

/-- `SwapRecommendation` from suggestions.go. -/
structure SwapRecommendation where
  amount : ℤ
  channel : ℕ
deriving DecidableEq, Repr

/-- `newSwapRecommendation` from suggestions.go. -/
def newSwapRecommendation (amount : ℤ) (channel : ℕ) :
    SwapRecommendation :=
  { amount := amount, channel := channel }

/-- One insertion step of the stable descending sort performed by
`sort.SliceStable(channels, less(i,j) = amount i > amount j)`: the inserted
element precedes exactly the strictly smaller ones, so elements with equal
surplus keep their original relative order. -/
def insertSurplusDesc (c : channelSurplus) :
    List channelSurplus → List channelSurplus
  | [] => [c]
  | x :: xs =>
    if x.amount < c.amount then c :: x :: xs
    else x :: insertSurplusDesc c xs

/-- The stable descending-by-amount sort of `sort.SliceStable` in
`selectSingleSwap`. -/
def sortSurplusDesc : List channelSurplus → List channelSurplus
  | [] => []
  | c :: rest => insertSurplusDesc c (sortSurplusDesc rest)

/-- The main loop of `selectSingleSwap` from suggestions.go, over the sorted
channel list, threading the remaining target `amount`.  The `break` once the
remaining amount falls under the minimum swap amount becomes the
early-terminating branch. -/
def selectLoop (minSwapAmount maxSwapAmount : ℤ) :
    List channelSurplus → ℤ → List SwapRecommendation
  | [], _ => []
  | channel :: rest, amount =>
    if channel.amount < minSwapAmount then
      selectLoop minSwapAmount maxSwapAmount rest amount
    else
      let availableAmt := if channel.amount > amount then amount
        else channel.amount
      let swapAmt := if availableAmt < maxSwapAmount then availableAmt
        else maxSwapAmount
      let swap := newSwapRecommendation swapAmt channel.channel
      let amount' := amount - swapAmt
      if amount' < minSwapAmount then [swap]
      else swap :: selectLoop minSwapAmount maxSwapAmount rest amount'

/-- `selectSingleSwap` from suggestions.go: break a target amount into at
most one swap per surplus channel, respecting the size restrictions. -/
def selectSingleSwap (channels : List channelSurplus)
    (amount minSwapAmount maxSwapAmount : ℤ) :
    List SwapRecommendation :=
  selectLoop minSwapAmount maxSwapAmount (sortSurplusDesc channels) amount

/-- Sum of the amounts of a list of recommendations. -/
def sumAmounts (l : List SwapRecommendation) : ℤ :=
  (l.map (fun r => r.amount)).sum

/-- The errors produced by the liquidity package.  Wrapped errors (Go's
`fmt.Errorf("channel %v has invalid rule: %v", ...)`) keep their cause. -/
inductive Err where
  | zeroChannelID
  | invalidLiquidityRatio
  | invalidRatioSum
  | invalidChannelRule (channel : ℕ) (cause : Err)
  | noRules
  | singleRule
  | noParameters
  | insufficientSwapFee
  | insufficientMinerFee
  | insufficientPrepay
  | upstream (code : ℕ)
deriving DecidableEq, Repr

/-- `Restrictions` from the manager files: inclusive swap-amount bounds. -/
structure Restrictions where
  minimumAmount : ℤ
  maximumAmount : ℤ
deriving DecidableEq, Repr

/-- `NewRestrictions`. -/
def NewRestrictions (minimum maximum : ℤ) : Restrictions :=
  { minimumAmount := minimum, maximumAmount := maximum }

/-- `SwapSet` from suggestions.go: the evaluated output of one rule
application. -/
structure SwapSet where
  action : Action
  reason : Reason
  swaps : List SwapRecommendation
deriving DecidableEq, Repr

/-- `newSwapSet` from suggestions.go. -/
def newSwapSet (action : Action) (reason : Reason)
    (swaps : List SwapRecommendation) : SwapSet :=
  { action := action, reason := reason, swaps := swaps }

/-- `RatioRule` from rules.go: minimum incoming and outgoing liquidity
ratios, scoped to the whole node or to one peer. -/
structure RatioRule where
  minimumInbound : ℚ
  minimumOutbound : ℚ
deriving DecidableEq, Repr

/-- `RatioRule.validate` from rules.go. -/
def RatioRule.validate (r : RatioRule) : Option Err :=
  if r.minimumInbound < 0 ∨ r.minimumInbound > 1 then
    some .invalidLiquidityRatio
  else if r.minimumOutbound < 0 ∨ r.minimumOutbound > 1 then
    some .invalidLiquidityRatio
  else if r.minimumInbound + r.minimumOutbound ≥ 1 then
    some .invalidRatioSum
  else none

/-- The shared tail of `RatioRule.getSwaps` from ratio_rule.go, after the
switch on the action has fixed the swap type, the applicable restrictions and
the shift ratio. -/
def getSwapsFinish (r : RatioRule) (channelBalances : List balances)
    (total : balances) (action : Action) (reason : Reason)
    (swapType : SwapType) (restrictions : Restrictions) (shiftRatio : ℚ) :
    SwapSet :=
  let amt : ℚ := (total.capacity : ℚ) * shiftRatio
  if amt < (restrictions.minimumAmount : ℚ) then
    newSwapSet action .ReasonMinimumAmount []
  else
    let channels := channelBalances.filterMap (fun channel =>
      let surplus : ℚ :=
        if swapType = .typeIn then channel.incomingRatio - r.minimumInbound
        else channel.outgoingRatio - r.minimumOutbound
      if surplus ≤ 0 then none
      else some { amount := ratTrunc ((channel.capacity : ℚ) * surplus),
                  channel := channel.channelID })
    let swaps := selectSingleSwap channels (ratTrunc amt)
      restrictions.minimumAmount restrictions.maximumAmount
    newSwapSet action reason swaps

/-- `RatioRule.getSwaps` from ratio_rule.go: aggregate the balances, decide
the action, compute the shift ratio and allocate it over the surplus
channels.  The `default` branch of the Go switch is unreachable because
`Action` has exactly the three listed values. -/
def RatioRule.getSwaps (r : RatioRule) (channelBalances : List balances)
    (outRestrictions inRestrictions : Restrictions) : Except Err SwapSet :=
  let total : balances := channelBalances.foldl
    (fun acc b =>
      { capacity := acc.capacity + b.capacity
        incoming := acc.incoming + b.incoming
        outgoing := acc.outgoing + b.outgoing
        channelID := acc.channelID })
    { capacity := 0, incoming := 0, outgoing := 0, channelID := 0 }
  let ar := shouldSwap total r.minimumInbound r.minimumOutbound
  match ar.1 with
  | .ActionNone => .ok (newSwapSet ar.1 ar.2 [])
  | .ActionLoopOut =>
    .ok (getSwapsFinish r channelBalances total ar.1 ar.2 .typeOut
      outRestrictions
      (calculateSwapRatio total.incomingRatio r.minimumInbound
        total.outgoingRatio r.minimumOutbound))
  | .ActionLoopIn =>
    .ok (getSwapsFinish r channelBalances total ar.1 ar.2 .typeIn
      inRestrictions
      (calculateSwapRatio total.outgoingRatio r.minimumOutbound
        total.incomingRatio r.minimumInbound))

/-- `lndclient.ChannelInfo`, restricted to the fields the liquidity package
reads. -/
structure ChannelInfo where
  channelID : ℕ
  pubKeyBytes : ℕ
  capacity : ℤ
  localBalance : ℤ
  remoteBalance : ℤ
  channelPrivate : Bool
deriving DecidableEq, Repr

/-- `ExistingSwap` from the manager: a read-only snapshot of a previously
dispatched swap.  Times are integers ordered by `<`. -/
structure ExistingSwap where
  lastUpdate : ℤ
  swapHash : ℕ
  state : SwapState
  type : SwapType
  channels : List ℕ
  peer : Option ℕ
deriving DecidableEq, Repr

/-- The pending-swap bookkeeping of the swap loop in `getEligibleChannels`
(suggestions.go): walk the swaps, skip non-pending ones, and either abort
(`none`, the Go `return nil, nil` on an unrestricted pending swap) or gather
the channels of restricted pending loop outs and the last-hop peers of
restricted pending loop ins. -/
def buildPendingSets : List ExistingSwap →
    Option (List ℕ × List ℕ)
  | [] => some ([], [])
  | s :: rest =>
    if s.state.type ≠ .pending then buildPendingSets rest
    else
      match s.type with
      | .typeIn =>
        match s.peer with
        | none => none
        | some p =>
          (buildPendingSets rest).map (fun eo => (eo.1, p :: eo.2))
      | .typeOut =>
        if s.channels.isEmpty then none
        else (buildPendingSets rest).map
          (fun eo => (s.channels ++ eo.1, eo.2))

/-- The failure bookkeeping of the same loop: the channels of loop outs that
failed off chain after the failure cutoff.  In the Go code this map is built
by the same pass that builds the pending sets; it is read only when that pass
finishes without the early return, where the two formulations agree. -/
def recentlyFailed (failureCutoff : ℤ) : List ExistingSwap → List ℕ
  | [] => []
  | s :: rest =>
    (if s.state = .failOffchainPayments ∧ s.type = .typeOut ∧
        failureCutoff < s.lastUpdate
      then s.channels else []) ++ recentlyFailed failureCutoff rest

/-- `getEligibleChannels` from suggestions.go, as a pure function of the
clock (`now`), the configured failure backoff, the listed swaps and the
listed channels: the channel list filtered by the recently-failed set and the
two pending sets, or the empty list if a pending swap is unrestricted. -/
def getEligibleChannels (now backoff : ℤ) (allSwaps : List ExistingSwap)
    (channels : List ChannelInfo) : List ChannelInfo :=
  let failureCutoff := now - backoff
  let failedOut := recentlyFailed failureCutoff allSwaps
  match buildPendingSets allSwaps with
  | none => []
  | some existing =>
    channels.filter (fun channel =>
      ¬ failedOut.contains channel.channelID ∧
      ¬ existing.1.contains channel.channelID ∧
      ¬ existing.2.contains channel.pubKeyBytes)

/-- `getEligibleChannels` from liquidity.go (the per-channel-rules variant):
identical except that it has no failure backoff. -/
def getEligibleChannelsV1 (allSwaps : List ExistingSwap)
    (channels : List ChannelInfo) : List ChannelInfo :=
  match buildPendingSets allSwaps with
  | none => []
  | some existing =>
    channels.filter (fun channel =>
      ¬ existing.1.contains channel.channelID ∧
      ¬ existing.2.contains channel.pubKeyBytes)

/-- `uint64(x)` for an `int64`-valued `x`: reduction modulo `2^64`, as a
natural number. -/
def toUInt64Nat (x : ℤ) : ℕ :=
  (x % (2 ^ 64 : ℤ)).toNat

/-- `btcutil.Amount(u)` for a `uint64` value `u`: reinterpretation as a
signed 64-bit integer. -/
def ofUInt64 (n : ℕ) : ℤ :=
  if n < 2 ^ 63 then (n : ℤ) else (n : ℤ) - 2 ^ 64

/-- `ppmToSat` from suggestions.go: the fee that `ppm` parts per million
represent for `amount`, computed in Go through `uint64` arithmetic
(`uint64(amount) * uint64(ppm) / FeeBase`). -/
def ppmToSat (amount : ℤ) (ppm : ℤ) : ℤ :=
  ofUInt64 (toUInt64Nat amount * toUInt64Nat ppm % 2 ^ 64 / 1000000)

/-- `loopdb.ChannelSet` is a list of channel ids. -/
abbrev ChannelSet := List ℕ

/-- `LoopOutRecommendation` from suggestions.go. -/
structure LoopOutRecommendation where
  amount : ℤ
  channels : ChannelSet
deriving DecidableEq, Repr

/-- `newLoopOutRecommendation` from suggestions.go. -/
def newLoopOutRecommendation (amount : ℤ)
    (channels : List ℕ) : LoopOutRecommendation :=
  { amount := amount, channels := channels }

/-- Modelled from the spec: `ThresholdRule` (threshold_rule.go is not under
src/; only its callers and tests are).  Per the spec's data model it carries
the same two minimum-ratio thresholds as `RatioRule`, scoped to a single
channel. -/
structure ThresholdRule where
  minimumIncoming : ℚ
  minimumOutgoing : ℚ
deriving DecidableEq, Repr

/-- `NewThresholdRule`. -/
def NewThresholdRule (minimumIncoming minimumOutgoing : ℚ) : ThresholdRule :=
  { minimumIncoming := minimumIncoming, minimumOutgoing := minimumOutgoing }

/-- Modelled from the spec: `ThresholdRule.validate` (threshold_rule.go is
not under src/).  Per the spec's validation contract a rule is invalid if
either threshold is outside `[0,1]` or their sum is `≥ 1`; we mirror the
in-src `RatioRule.validate`, which implements the same contract. -/
def ThresholdRule.validate (r : ThresholdRule) : Option Err :=
  if r.minimumIncoming < 0 ∨ r.minimumIncoming > 1 then
    some .invalidLiquidityRatio
  else if r.minimumOutgoing < 0 ∨ r.minimumOutgoing > 1 then
    some .invalidLiquidityRatio
  else if r.minimumIncoming + r.minimumOutgoing ≥ 1 then
    some .invalidRatioSum
  else none

/-- `balances` of the suggestions.go variant, carrying the list of channels
the balances describe. -/
structure balancesChans where
  capacity : ℤ
  incoming : ℤ
  outgoing : ℤ
  channels : List ℕ
deriving DecidableEq, Repr

/-- `newBalances` from suggestions.go: balances of one listed channel. -/
def newBalances (info : ChannelInfo) : balancesChans :=
  { capacity := info.capacity
    incoming := info.remoteBalance
    outgoing := info.localBalance
    channels := [info.channelID] }

/-- Modelled from the spec: `ThresholdRule.suggestSwap` (threshold_rule.go is
not under src/).  Per the spec it applies the same classification logic to a
single channel in isolation and produces at most one loop-out
recommendation: classify with `shouldSwap`; when the action is a loop out,
shift `calculateSwapRatio` of the capacity, drop the suggestion when the
amount is below the restrictions' minimum, and clamp it to their maximum. -/
def ThresholdRule.suggestSwap (r : ThresholdRule) (balance : balancesChans)
    (restrictions : Restrictions) : Option LoopOutRecommendation :=
  let b : balances :=
    { capacity := balance.capacity, incoming := balance.incoming,
      outgoing := balance.outgoing, channelID := 0 }
  let ar := shouldSwap b r.minimumIncoming r.minimumOutgoing
  match ar.1 with
  | .ActionLoopOut =>
    let ratio := calculateSwapRatio b.incomingRatio r.minimumIncoming
      b.outgoingRatio r.minimumOutgoing
    let amount := ratTrunc ((balance.capacity : ℚ) * ratio)
    if amount < restrictions.minimumAmount then none
    else if amount > restrictions.maximumAmount then
      some (newLoopOutRecommendation restrictions.maximumAmount
        balance.channels)
    else some (newLoopOutRecommendation amount balance.channels)
  | _ => none

/-- `Parameters` of the per-channel-rules manager (suggestions.go variant):
fee limits, failure backoff, confirmation target, and the channel-rule map
(modelled as an association list keyed by short channel id). -/
structure ParametersFull where
  failureBackOff : ℤ
  maximumPrepay : ℤ
  maximumSwapFeePPM : ℤ
  maximumMinerFee : ℤ
  confTarget : ℤ
  channelRules : List (ℕ × ThresholdRule)
deriving DecidableEq, Repr

/-- `checkFeeLimits` from suggestions.go: check a quote against the
manager's fee limits. -/
def checkFeeLimits (p : ParametersFull) (swap miner prepay : ℤ)
    (suggestion : LoopOutRecommendation) : Option Err :=
  let allowedFee := ppmToSat suggestion.amount p.maximumSwapFeePPM
  if swap > allowedFee then some .insufficientSwapFee
  else if miner > p.maximumMinerFee then some .insufficientMinerFee
  else if prepay > p.maximumPrepay then some .insufficientPrepay
  else none

/-- Go map lookup `m.params.ChannelRules[channelID]` over the association
list model. -/
def lookupRule : List (ℕ × ThresholdRule) → ℕ →
    Option ThresholdRule
  | [], _ => none
  | cr :: rest, id => if cr.1 = id then some cr.2 else lookupRule rest id

/-- The external collaborators of the suggestions.go manager, as the values
its calls produce this cycle: server restrictions, swap listing, channel
listing, and the quote for a given amount and confirmation target. -/
structure EnvFull where
  loopOutRestrictions : Except Err Restrictions
  listSwaps : Except Err (List ExistingSwap)
  listChannels : Except Err (List ChannelInfo)
  loopOutQuote : ℤ → ℤ → Except Err (ℤ × ℤ × ℤ)

/-- The per-channel loop of `SuggestSwaps` (suggestions.go): look up the
channel's rule, get its suggestion, quote it (a quote failure aborts the
whole call) and keep it unless `checkFeeLimits` rejects it. -/
def suggestLoop (p : ParametersFull) (outRestrictions : Restrictions)
    (quote : ℤ → ℤ → Except Err (ℤ × ℤ × ℤ)) :
    List ChannelInfo → Except Err (List LoopOutRecommendation)
  | [] => .ok []
  | channel :: rest =>
    match lookupRule p.channelRules channel.channelID with
    | none => suggestLoop p outRestrictions quote rest
    | some rule =>
      match rule.suggestSwap (newBalances channel) outRestrictions with
      | none => suggestLoop p outRestrictions quote rest
      | some suggestion =>
        match quote suggestion.amount p.confTarget with
        | .error e => .error e
        | .ok fees =>
          match checkFeeLimits p fees.1 fees.2.1 fees.2.2 suggestion with
          | some _ => suggestLoop p outRestrictions quote rest
          | none =>
            match suggestLoop p outRestrictions quote rest with
            | .error e => .error e
            | .ok suggestions => .ok (suggestion :: suggestions)

/-- `Manager.SuggestSwaps` from suggestions.go, as a pure function of the
parameters, the environment and the clock: exit early with no error and no
calls when no rules are set, otherwise fetch restrictions, swaps and
channels, filter the eligible channels, and run the suggestion loop. -/
def SuggestSwapsFull (p : ParametersFull) (env : EnvFull) (now : ℤ) :
    Except Err (List LoopOutRecommendation) :=
  if p.channelRules.isEmpty then .ok []
  else
    match env.loopOutRestrictions with
    | .error e => .error e
    | .ok outRestrictions =>
      match env.listSwaps with
      | .error e => .error e
      | .ok allSwaps =>
        match env.listChannels with
        | .error e => .error e
        | .ok channels =>
          suggestLoop p outRestrictions env.loopOutQuote
            (getEligibleChannels now p.failureBackOff allSwaps channels)

/-- The external calls a manager call can make. -/
inductive ExtCall where
  | loopOutRestrictions
  | listSwaps
  | listChannels
  | loopOutQuote
deriving DecidableEq, Repr

/-- The external collaborators of the liquidity.go manager (which has no
quote dependency). -/
structure EnvV1 where
  loopOutRestrictions : Except Err Restrictions
  listSwaps : Except Err (List ExistingSwap)
  listChannels : Except Err (List ChannelInfo)

/-- `Manager.SuggestSwaps` from liquidity.go (the variant without fee
checks), also recording which external calls were made: exit early, with no
error and no external calls, when no rules are set; otherwise fetch
restrictions, swaps and channels and collect the non-nil per-channel
suggestions of the eligible channels. -/
def SuggestSwapsV1 (channelRules : List (ℕ × ThresholdRule))
    (env : EnvV1) :
    Except Err (List LoopOutRecommendation) × List ExtCall :=
  if channelRules.isEmpty then (.ok [], [])
  else
    match env.loopOutRestrictions with
    | .error e => (.error e, [.loopOutRestrictions])
    | .ok outRestrictions =>
      match env.listSwaps with
      | .error e => (.error e, [.loopOutRestrictions, .listSwaps])
      | .ok allSwaps =>
        match env.listChannels with
        | .error e =>
          (.error e, [.loopOutRestrictions, .listSwaps, .listChannels])
        | .ok channels =>
          (.ok ((getEligibleChannelsV1 allSwaps channels).filterMap
            (fun channel =>
              match lookupRule channelRules channel.channelID with
              | none => none
              | some rule =>
                rule.suggestSwap (newBalances channel) outRestrictions)),
           [.loopOutRestrictions, .listSwaps, .listChannels])

/-- `Parameters` of the node/peer-rule manager variant: at most one of a
node-scope rule and a peer-scope rule (the `Rule` interface's only in-src
implementation is `RatioRule`), plus the private-channel flag. -/
structure ParametersNP where
  nodeRule : Option RatioRule
  peerRule : Option RatioRule
  includePrivate : Bool
deriving DecidableEq, Repr

/-- `Parameters.validate` of the node/peer variant: both rules set is
rejected, and whichever rule is set must itself validate. -/
def ParametersNP.validate (p : ParametersNP) : Option Err :=
  if p.nodeRule.isSome ∧ p.peerRule.isSome then some .singleRule
  else
    match p.nodeRule with
    | some r =>
      match r.validate with
      | some e => some e
      | none =>
        match p.peerRule with
        | some r' =>
          match r'.validate with
          | some e => some e
          | none => none
        | none => none
    | none =>
      match p.peerRule with
      | some r' =>
        match r'.validate with
        | some e => some e
        | none => none
      | none => none

/-- `SwapSuggestion` of the node/peer variant: the rule used and the swap
sets it produced. -/
structure SwapSuggestion where
  rule : RatioRule
  suggestions : List SwapSet
deriving DecidableEq, Repr

/-- The `balances` value built for one listed channel by `suggestSwaps` of
the node/peer variant. -/
def toBalances (channel : ChannelInfo) : balances :=
  { outgoing := channel.localBalance
    incoming := channel.remoteBalance
    capacity := channel.capacity
    channelID := channel.channelID }

/-- Appending a channel's balances to its peer's entry of the per-peer
grouping map.  Go iterates this map in unspecified order; the model fixes
first-appearance order, on which no claim depends. -/
def addPeerBalance (groups : List (ℕ × List balances)) (v : ℕ)
    (b : balances) : List (ℕ × List balances) :=
  match groups with
  | [] => [(v, [b])]
  | g :: rest =>
    if g.1 = v then (g.1, g.2 ++ [b]) :: rest
    else g :: addPeerBalance rest v b

/-- The per-peer loop of `suggestSwaps` of the node/peer variant: apply the
peer rule to every peer's balances, aborting on the first error. -/
def foldPeers (rule : RatioRule) (outR inR : Restrictions) :
    List (ℕ × List balances) → Except Err (List SwapSet)
  | [] => .ok []
  | g :: rest =>
    match rule.getSwaps g.2 outR inR with
    | .error e => .error e
    | .ok s =>
      match foldPeers rule outR inR rest with
      | .error e => .error e
      | .ok sets => .ok (s :: sets)

/-- `suggestSwaps` of the node/peer variant (the manager file whose name is
unknown): divide the channels into node-level or per-peer balances, skipping
private channels unless included, and apply whichever rule is set; with no
rule set, fail with `ErrNoRules`. -/
def suggestSwapsNP (p : ParametersNP) (outR inR : Restrictions)
    (channels : List ChannelInfo) : Except Err SwapSuggestion :=
  if p.nodeRule.isSome ∧ p.peerRule.isSome then .error .noRules
  else
    let grouped := channels.foldl
      (fun (acc : List balances × List (ℕ × List balances)) channel =>
        if channel.channelPrivate ∧ ¬ p.includePrivate then acc
        else
          let b := toBalances channel
          ((if p.nodeRule.isSome then acc.1 ++ [b] else acc.1),
           (if p.peerRule.isSome then addPeerBalance acc.2 channel.pubKeyBytes b
            else acc.2)))
      ([], [])
    match p.nodeRule with
    | some rule =>
      match rule.getSwaps grouped.1 outR inR with
      | .error e => .error e
      | .ok swaps => .ok { rule := rule, suggestions := [swaps] }
    | none =>
      match p.peerRule with
      | some rule =>
        match foldPeers rule outR inR grouped.2 with
        | .error e => .error e
        | .ok sets => .ok { rule := rule, suggestions := sets }
      | none => .error .noRules

/-- The collaborators of the node/peer manager: the server restrictions held
in its config and the channel-listing call. -/
structure ConfigNP where
  serverInRestrictions : Restrictions
  serverOutRestrictions : Restrictions
  listChannels : Except Err (List ChannelInfo)

/-- The suggestion branch of the node/peer manager's event loop (`run`): it
lists the channels first — its one external call — and only then runs
`suggestSwaps` on the current parameters. -/
def handleSuggestionRequest (p : ParametersNP) (cfg : ConfigNP) :
    Except Err SwapSuggestion × List ExtCall :=
  match cfg.listChannels with
  | .error e => (.error e, [.listChannels])
  | .ok channels =>
    (suggestSwapsNP p cfg.serverOutRestrictions cfg.serverInRestrictions
      channels, [.listChannels])

/-! The liquidity.go manager stores `Parameters` whose `ChannelRules` map
holds *pointers* to `ThresholdRule` values.  To state the deep-copy claims we
model the Go heap explicitly: an allocation counter and the store of
`ThresholdRule` cells. -/

/-- The heap of `ThresholdRule` cells: the next fresh address and the cell
contents. -/
structure Heap where
  next : ℕ
  mem : ℕ → ThresholdRule

/-- Writing a rule cell through a pointer (`*rule = v`). -/
def writeHeap (h : Heap) (a : ℕ) (v : ThresholdRule) : Heap :=
  { next := h.next, mem := fun x => if x = a then v else h.mem x }

/-- The representation of a `Parameters` value: the `ChannelRules` map as an
association list of channel id and rule *address*. -/
abbrev ParamsRepr := List (ℕ × ℕ)

/-- The value a `Parameters` representation denotes: each rule pointer
dereferenced. -/
def readParams (h : Heap) (p : ParamsRepr) : List (ℕ × ThresholdRule) :=
  p.map (fun ca => (ca.1, h.mem ca.2))

/-- All rule addresses of a representation. -/
def reprAddrs (p : ParamsRepr) : List ℕ :=
  p.map (fun ca => ca.2)

/-- `cloneParameters` from liquidity.go: a fresh map whose entries point at
freshly allocated copies (`ruleCopy := *rule`) of the original rules. -/
def cloneParameters (h : Heap) : ParamsRepr → Heap × ParamsRepr
  | [] => (h, [])
  | ca :: rest =>
    let h1 : Heap :=
      { next := h.next + 1
        mem := fun x => if x = h.next then h.mem ca.2 else h.mem x }
    let hr := cloneParameters h1 rest
    (hr.1, (ca.1, h.next) :: hr.2)

/-- `Parameters.validate` from liquidity.go, applied to the dereferenced
rule map: a zero channel id is rejected, and each rule must validate (the Go
code wraps the rule's error with the channel id). -/
def validateParams : List (ℕ × ThresholdRule) → Option Err
  | [] => none
  | cr :: rest =>
    if cr.1 = 0 then some .zeroChannelID
    else
      match cr.2.validate with
      | some e => some (.invalidChannelRule cr.1 e)
      | none => validateParams rest

/-- The liquidity.go `Manager`, reduced to what the parameter operations
touch: the heap and the stored rule map. -/
structure Manager where
  heap : Heap
  params : ParamsRepr

/-- Every stored rule address has been allocated. -/
def Manager.wf (m : Manager) : Prop :=
  ∀ ca ∈ m.params, ca.2 < m.heap.next

/-- `Manager.GetParameters` from liquidity.go: a deep clone of the stored
parameters; the allocations it performs grow the heap. -/
def GetParameters (m : Manager) : ParamsRepr × Manager :=
  let hr := cloneParameters m.heap m.params
  (hr.2, { heap := hr.1, params := m.params })

/-- `Manager.SetParameters` from liquidity.go: validate the proposed
parameters; on success store a deep clone of them. -/
def SetParameters (m : Manager) (p : ParamsRepr) : Option Err × Manager :=
  match validateParams (readParams m.heap p) with
  | some e => (some e, m)
  | none =>
    let hr := cloneParameters m.heap p
    (none, { heap := hr.1, params := hr.2 })

/-! Spec-side predicates used to state the claims. -/

/-- A pending swap with no off-chain restriction: a loop in without a
last-hop peer, or a loop out without a channel list. -/
def unrestrictedSwap (s : ExistingSwap) : Prop :=
  (s.type = .typeIn ∧ s.peer = none) ∨
  (s.type = .typeOut ∧ s.channels = [])

instance (s : ExistingSwap) : Decidable (unrestrictedSwap s) := by
  unfold unrestrictedSwap; infer_instance

/-- The spec's validity of a dereferenced rule map: no zero channel id and
every rule valid. -/
def paramsValid (l : List (ℕ × ThresholdRule)) : Prop :=
  ∀ cr ∈ l, cr.1 ≠ 0 ∧ cr.2.validate = none

instance (l : List (ℕ × ThresholdRule)) : Decidable (paramsValid l) := by
  unfold paramsValid; infer_instance

/-- The channels of pending loop-out swaps, in scan order (spec-side
companion of `buildPendingSets`). -/
def pendingOutChans : List ExistingSwap → List ℕ
  | [] => []
  | s :: rest =>
    (if s.state.type = SwapStateType.pending ∧ s.type = SwapType.typeOut
      then s.channels else []) ++ pendingOutChans rest

/-- The last-hop peers of pending loop-in swaps, in scan order (spec-side
companion of `buildPendingSets`). -/
def pendingInPeers : List ExistingSwap → List ℕ
  | [] => []
  | s :: rest =>
    (match s.peer with
      | some p =>
        if s.state.type = SwapStateType.pending ∧ s.type = SwapType.typeIn
          then [p] else []
      | none => []) ++ pendingInPeers rest

/-! Concrete fixtures used by the witness theorems. -/

/-- A pending loop out restricted to channel 1. -/
def swapPendingOut1 : ExistingSwap :=
  { lastUpdate := 0, swapHash := 9, state := .initiated, type := .typeOut,
    channels := [1], peer := none }

/-- A loop out on channel 1 that failed off chain at time 0. -/
def swapFailedOut1 : ExistingSwap :=
  { lastUpdate := 0, swapHash := 3, state := .failOffchainPayments,
    type := .typeOut, channels := [1], peer := none }

/-- Listed channel 1 with peer 11. -/
def chanInfo1 : ChannelInfo :=
  { channelID := 1, pubKeyBytes := 11, capacity := 1000,
    localBalance := 1000, remoteBalance := 0, channelPrivate := false }

/-- Listed channel 2 with peer 12. -/
def chanInfo2 : ChannelInfo :=
  { channelID := 2, pubKeyBytes := 12, capacity := 1000,
    localBalance := 500, remoteBalance := 500, channelPrivate := false }

/-- An environment for the liquidity.go manager in which every external
call succeeds. -/
def envV1Trivial : EnvV1 :=
  { loopOutRestrictions := .ok (NewRestrictions 1 10000)
    listSwaps := .ok []
    listChannels := .ok [] }

/-- Node/peer-variant parameters with no rule configured. -/
def paramsNPEmpty : ParametersNP :=
  { nodeRule := none, peerRule := none, includePrivate := false }

/-- A node/peer-variant config whose channel listing succeeds with no
channels. -/
def cfgNPTrivial : ConfigNP :=
  { serverInRestrictions := NewRestrictions 1 10000
    serverOutRestrictions := NewRestrictions 1 10000
    listChannels := .ok [] }

/-- Spec-side companion of the suggestion loop: the recommendation a single
channel contributes when its quote succeeds and passes the fee limits, and
`none` when the channel has no rule, no suggestion, or fails a fee check. -/
def passingSuggestion (p : ParametersFull) (outRestrictions : Restrictions)
    (quote : ℤ → ℤ → Except Err (ℤ × ℤ × ℤ)) (channel : ChannelInfo) :
    Option LoopOutRecommendation :=
  match lookupRule p.channelRules channel.channelID with
  | none => none
  | some rule =>
    match rule.suggestSwap (newBalances channel) outRestrictions with
    | none => none
    | some suggestion =>
      match quote suggestion.amount p.confTarget with
      | .error _ => none
      | .ok fees =>
        match checkFeeLimits p fees.1 fees.2.1 fees.2.2 suggestion with
        | some _ => none
        | none => some suggestion

/-- Parameters for the full-pipeline witness: one rule on channel 1. -/
def paramsFull1 : ParametersFull :=
  { failureBackOff := 10, maximumPrepay := 100, maximumSwapFeePPM := 5000,
    maximumMinerFee := 500, confTarget := 9,
    channelRules := [(1, NewThresholdRule (1/10) (1/10))] }

/-- An environment for the full pipeline in which every call succeeds and
every quote is cheap. -/
def envFull1 : EnvFull :=
  { loopOutRestrictions := .ok (NewRestrictions 1 10000)
    listSwaps := .ok []
    listChannels := .ok [chanInfo1]
    loopOutQuote := fun _ _ => .ok (1, 3, 2) }

/-- A concrete recommendation used by the fee-limit witness. -/
def recommendation1 : LoopOutRecommendation :=
  newLoopOutRecommendation 100000 [1]

/-- A one-cell heap whose only allocated rule is the zero rule. -/
def heap0 : Heap :=
  { next := 1, mem := fun _ => NewThresholdRule 0 0 }

/-- A manager owning one rule cell for channel 5. -/
def manager0 : Manager :=
  { heap := heap0, params := [(5, 0)] }

/-- A caller-built parameter representation for channel 6, aliasing cell
0. -/
def reprP0 : ParamsRepr :=
  [(6, 0)]

/-! ## Theorems -/

/-- C1: `calculateSwapRatio` returns, with `required = deficitMinimum -
deficitCurrent` and `available = surplusCurrent - surplusMinimum`, exactly
`available/2` when `available ≤ required`, and otherwise — with `midpoint =
(deficitMinimum + (1 - surplusMinimum))/2` and `midpointDelta = midpoint -
deficitCurrent` — `midpointDelta` when `midpointDelta ≤ available` and
`required` when not. -/
theorem c1_calculateSwapRatio_regimes
    (deficitCurrent deficitMinimum surplusCurrent surplusMinimum : ℚ) :
    (surplusCurrent - surplusMinimum ≤ deficitMinimum - deficitCurrent →
      calculateSwapRatio deficitCurrent deficitMinimum surplusCurrent
        surplusMinimum = (surplusCurrent - surplusMinimum) / 2) ∧
    (deficitMinimum - deficitCurrent < surplusCurrent - surplusMinimum →
      ((deficitMinimum + (1 - surplusMinimum)) / 2 - deficitCurrent ≤
          surplusCurrent - surplusMinimum →
        calculateSwapRatio deficitCurrent deficitMinimum surplusCurrent
          surplusMinimum =
          (deficitMinimum + (1 - surplusMinimum)) / 2 - deficitCurrent) ∧
      (surplusCurrent - surplusMinimum <
          (deficitMinimum + (1 - surplusMinimum)) / 2 - deficitCurrent →
        calculateSwapRatio deficitCurrent deficitMinimum surplusCurrent
          surplusMinimum = deficitMinimum - deficitCurrent)) := by
  simp only [calculateSwapRatio]
  refine ⟨fun h => ?_, fun h => ⟨fun h2 => ?_, fun h2 => ?_⟩⟩
  · rw [if_pos h]
  · rw [if_neg (by linarith), if_pos h2]
  · rw [if_neg (by linarith), if_neg (by linarith)]

/-- Witness for C1 at a concrete input in the midpoint regime. -/
theorem c1_witness :
    ((2 : ℚ)/5 - 1/5 < 4/5 - 1/5 ∧
      (2/5 + (1 - 1/5)) / 2 - (1 : ℚ)/5 ≤ 4/5 - 1/5) ∧
    calculateSwapRatio (1/5) (2/5) (4/5) (1/5) =
      (2/5 + (1 - 1/5)) / 2 - 1/5 :=
  ⟨⟨by norm_num, by norm_num⟩,
    ((c1_calculateSwapRatio_regimes (1/5) (2/5) (4/5) (1/5)).2
      (by norm_num)).1 (by norm_num)⟩

/-- C2 counterexample: with `deficitCurrent = 1/2`, `deficitMinimum = 9/10`,
`surplusMinimum = 3/5` and `surplusCurrent` rising from `1` to `101/100`
(so `required` is held fixed), the returned ratio *decreases* from `1/5` to
`3/20`, refuting the claimed unconditional monotonicity in the available
surplus. -/
theorem c2_counterexample :
    ((1 : ℚ) ≤ 101/100) ∧
    calculateSwapRatio (1/2) (9/10) (101/100) (3/5) <
      calculateSwapRatio (1/2) (9/10) 1 (3/5) := by
  constructor
  · norm_num
  · norm_num [calculateSwapRatio]

/-- C2 (amended): `calculateSwapRatio` is monotonic in the surplus side's
current ratio provided the deficit side is actually in deficit
(`deficitCurrent ≤ deficitMinimum`) and the two minimums sum to at most one
— both hold whenever the function is reached through `getSwaps` with a
validated rule. -/
theorem c2_calculateSwapRatio_monotone
    (deficitCurrent deficitMinimum surplusMinimum s1 s2 : ℚ)
    (hdef : deficitCurrent ≤ deficitMinimum)
    (hsum : deficitMinimum + surplusMinimum ≤ 1)
    (h12 : s1 ≤ s2) :
    calculateSwapRatio deficitCurrent deficitMinimum s1 surplusMinimum ≤
      calculateSwapRatio deficitCurrent deficitMinimum s2 surplusMinimum := by
  simp only [calculateSwapRatio]
  split_ifs <;> linarith

/-- Witness for C2 at a concrete input crossing the regime boundary. -/
theorem c2_witness :
    ((1 : ℚ)/5 ≤ 2/5 ∧ (2 : ℚ)/5 + 1/5 ≤ 1 ∧ (1 : ℚ)/2 ≤ 9/10) ∧
    calculateSwapRatio (1/5) (2/5) (1/2) (1/5) ≤
      calculateSwapRatio (1/5) (2/5) (9/10) (1/5) :=
  ⟨⟨by norm_num, by norm_num, by norm_num⟩,
    c2_calculateSwapRatio_monotone (1/5) (2/5) (1/5) (1/2) (9/10)
      (by norm_num) (by norm_num) (by norm_num)⟩

/-- C6: `shouldSwap` classifies exactly as claimed — `NoCapacity` on zero
capacity, `NoSurplus` when both ratios are below their thresholds,
`LoopOut`/`LoopIn` when only the inbound/outbound ratio is below, and
`LiquidityOk` otherwise — and on balances `{capacity:100, incoming:20,
outgoing:80}` with thresholds `{3/5, 1/5}` it returns
`(LoopOut, Imbalanced)`. -/
theorem c6_shouldSwap_classification :
    (∀ (b : balances) (minInbound minOutbound : ℚ),
      (b.capacity = 0 →
        shouldSwap b minInbound minOutbound =
          (.ActionNone, .ReasonNoCapacity)) ∧
      (b.capacity ≠ 0 →
        (b.incomingRatio < minInbound ∧ b.outgoingRatio < minOutbound →
          shouldSwap b minInbound minOutbound =
            (.ActionNone, .ReasonNoSurplus)) ∧
        (b.incomingRatio < minInbound ∧ ¬ b.outgoingRatio < minOutbound →
          shouldSwap b minInbound minOutbound =
            (.ActionLoopOut, .ReasonImbalanced)) ∧
        (¬ b.incomingRatio < minInbound ∧ b.outgoingRatio < minOutbound →
          shouldSwap b minInbound minOutbound =
            (.ActionLoopIn, .ReasonImbalanced)) ∧
        (¬ b.incomingRatio < minInbound ∧ ¬ b.outgoingRatio < minOutbound →
          shouldSwap b minInbound minOutbound =
            (.ActionNone, .ReasonLiquidityOk)))) ∧
    shouldSwap
        { capacity := 100, incoming := 20, outgoing := 80, channelID := 1 }
        (3/5) (1/5) =
      (.ActionLoopOut, .ReasonImbalanced) := by
  constructor
  · intro b minInbound minOutbound
    constructor
    · intro h; simp only [shouldSwap, if_pos h]
    · intro h
      refine ⟨fun hc => ?_, fun hc => ?_, fun hc => ?_, fun hc => ?_⟩ <;>
        · simp only [shouldSwap, if_neg h]
          split_ifs <;> tauto
  · norm_num [shouldSwap, balances.incomingRatio, balances.outgoingRatio]

/-- Witness for C6 at a concrete deficit-both-sides input. -/
theorem c6_witness :
    ((100 : ℤ) ≠ 0 ∧
      balances.incomingRatio
          { capacity := 100, incoming := 10, outgoing := 10,
            channelID := 2 } < 1/2 ∧
      balances.outgoingRatio
          { capacity := 100, incoming := 10, outgoing := 10,
            channelID := 2 } < 1/4) ∧
    shouldSwap
        { capacity := 100, incoming := 10, outgoing := 10, channelID := 2 }
        (1/2) (1/4) =
      (.ActionNone, .ReasonNoSurplus) :=
  ⟨⟨by norm_num,
      by norm_num [balances.incomingRatio],
      by norm_num [balances.outgoingRatio]⟩,
    (((c6_shouldSwap_classification.1
        { capacity := 100, incoming := 10, outgoing := 10, channelID := 2 }
        (1/2) (1/4)).2 (by norm_num)).1
      ⟨by norm_num [balances.incomingRatio],
        by norm_num [balances.outgoingRatio]⟩)⟩

/-! Lemmas about the allocation algorithm. -/

theorem insertSurplusDesc_perm (c : channelSurplus)
    (l : List channelSurplus) :
    List.Perm (insertSurplusDesc c l) (c :: l) := by
  induction l with
  | nil => simp [insertSurplusDesc]
  | cons x xs ih =>
    simp only [insertSurplusDesc]
    split_ifs
    · exact List.Perm.refl _
    · exact (List.Perm.cons x ih).trans (List.Perm.swap c x xs)

theorem sortSurplusDesc_perm (l : List channelSurplus) :
    List.Perm (sortSurplusDesc l) l := by
  induction l with
  | nil => exact List.Perm.refl _
  | cons c rest ih =>
    exact (insertSurplusDesc_perm c (sortSurplusDesc rest)).trans
      (List.Perm.cons c ih)

theorem selectLoop_channels_sublist (minS maxS : ℤ)
    (l : List channelSurplus) (amount : ℤ) :
    ((selectLoop minS maxS l amount).map (fun r => r.channel)).Sublist
      (l.map (fun c => c.channel)) := by
  induction l generalizing amount with
  | nil => simp [selectLoop]
  | cons c rest ih =>
    simp only [selectLoop, newSwapRecommendation]
    split_ifs with h1 h2 h3 h4 h5 h6 h7 h8 <;>
      first
      | exact (ih amount).trans (List.sublist_cons_self _ _)
      | · simp only [List.map_cons, List.map_nil]
          exact List.Sublist.cons₂ _ (List.nil_sublist _)
      | · simp only [List.map_cons]
          exact List.Sublist.cons₂ _ (ih _)

theorem selectLoop_amounts_bounded (minS maxS : ℤ)
    (hmm : minS ≤ maxS) (l : List channelSurplus) (amount : ℤ)
    (hamt : minS ≤ amount) :
    ∀ r ∈ selectLoop minS maxS l amount,
      minS ≤ r.amount ∧ r.amount ≤ maxS := by
  induction l generalizing amount with
  | nil => simp [selectLoop]
  | cons c rest ih =>
    simp only [selectLoop, newSwapRecommendation]
    split_ifs with h1 h2 h3 h4 h5 h6 h7 h8
    all_goals try exact ih amount hamt
    all_goals intro r hr
    all_goals rcases List.mem_cons.mp hr with rfl | hr
    all_goals try exact absurd hr (List.not_mem_nil _)
    all_goals try (dsimp only; omega)
    all_goals exact ih _ (by omega) r hr

theorem selectLoop_sum_le (minS maxS : ℤ) (l : List channelSurplus)
    (amount : ℤ) (hamt : 0 ≤ amount) :
    sumAmounts (selectLoop minS maxS l amount) ≤ amount := by
  induction l generalizing amount with
  | nil => simpa [selectLoop, sumAmounts] using hamt
  | cons c rest ih =>
    simp only [selectLoop, newSwapRecommendation]
    split_ifs with h1 h2 h3 h4 h5 h6 h7 h8
    all_goals try exact ih amount hamt
    all_goals simp only [sumAmounts, List.map_cons, List.map_nil,
      List.sum_cons, List.sum_nil]
    all_goals try omega
    all_goals first
      | · have hrec := ih (amount - amount) (by omega)
          simp only [sumAmounts] at hrec
          omega
      | · have hrec := ih (amount - c.amount) (by omega)
          simp only [sumAmounts] at hrec
          omega
      | · have hrec := ih (amount - maxS) (by omega)
          simp only [sumAmounts] at hrec
          omega

/-- C3 counterexample: with one channel of surplus `100`, target amount `5`,
`minSwap = 10` and `maxSwap = 100`, `selectSingleSwap` emits the
recommendation `{amount := 5}`, whose amount is *below* `minSwap`: the first
iteration clamps the usable amount to the remaining target before the
minimum is re-checked, refuting the claimed unconditional lower bound. -/
theorem c3_counterexample :
    selectSingleSwap [{ amount := 100, channel := 7 }] 5 10 100 =
      [{ amount := 5, channel := 7 }] ∧
    ¬ (10 : ℤ) ≤ 5 := by
  constructor
  · rfl
  · decide

/-- C3 (amended): provided `0 ≤ minSwap`, `minSwap ≤ maxSwap` and
`minSwap ≤ targetAmount` (the code never re-checks the minimum against the
clamped remainder of the first iteration, so a target below `minSwap` can
emit a smaller swap), every emitted amount lies in `[minSwap, maxSwap]`, the
emitted amounts sum to at most the target, and each input channel yields at
most one recommendation. -/
theorem c3_selectSingleSwap_bounds (channels : List channelSurplus)
    (amount minSwapAmount maxSwapAmount : ℤ)
    (h0 : 0 ≤ minSwapAmount) (h1 : minSwapAmount ≤ maxSwapAmount)
    (h2 : minSwapAmount ≤ amount) :
    (∀ r ∈ selectSingleSwap channels amount minSwapAmount maxSwapAmount,
      minSwapAmount ≤ r.amount ∧ r.amount ≤ maxSwapAmount) ∧
    sumAmounts (selectSingleSwap channels amount minSwapAmount
      maxSwapAmount) ≤ amount ∧
    (∀ id : ℕ,
      ((selectSingleSwap channels amount minSwapAmount maxSwapAmount).map
          (fun r => r.channel)).count id ≤
        (channels.map (fun c => c.channel)).count id) := by
  refine ⟨selectLoop_amounts_bounded _ _ h1 _ _ h2, ?_, ?_⟩
  · exact selectLoop_sum_le _ _ _ _ (le_trans h0 h2)
  · intro id
    calc ((selectSingleSwap channels amount minSwapAmount
            maxSwapAmount).map (fun r => r.channel)).count id
        ≤ ((sortSurplusDesc channels).map (fun c => c.channel)).count id :=
          (selectLoop_channels_sublist _ _ _ _).count_le id
      _ = (channels.map (fun c => c.channel)).count id :=
          ((sortSurplusDesc_perm channels).map (fun c => c.channel)).count_eq
            id

/-- Witness for C3 on the spec's two-channel scenario. -/
theorem c3_witness :
    ((0 : ℤ) ≤ 10 ∧ (10 : ℤ) ≤ 100 ∧ (10 : ℤ) ≤ 150) ∧
    ((∀ r ∈ selectSingleSwap
        [{ amount := 200, channel := 1 }, { amount := 200, channel := 2 }]
        150 10 100, (10 : ℤ) ≤ r.amount ∧ r.amount ≤ 100) ∧
      sumAmounts (selectSingleSwap
        [{ amount := 200, channel := 1 }, { amount := 200, channel := 2 }]
        150 10 100) ≤ 150 ∧
      (∀ id : ℕ,
        ((selectSingleSwap
            [{ amount := 200, channel := 1 },
              { amount := 200, channel := 2 }] 150 10 100).map
            (fun r => r.channel)).count id ≤
          (([{ amount := 200, channel := 1 },
              { amount := 200, channel := 2 }] : List channelSurplus).map
            (fun c => c.channel)).count id)) :=
  ⟨⟨by decide, by decide, by decide⟩,
    c3_selectSingleSwap_bounds
      [{ amount := 200, channel := 1 }, { amount := 200, channel := 2 }]
      150 10 100 (by decide) (by decide) (by decide)⟩

/-! Lemmas about the eligibility filter's swap scan. -/

theorem recentlyFailed_mem (failureCutoff : ℤ) (l : List ExistingSwap)
    (x : ℕ) :
    x ∈ recentlyFailed failureCutoff l ↔
      ∃ s ∈ l, s.state = SwapState.failOffchainPayments ∧
        s.type = SwapType.typeOut ∧ failureCutoff < s.lastUpdate ∧
        x ∈ s.channels := by
  induction l with
  | nil => simp [recentlyFailed]
  | cons s rest ih =>
    simp only [recentlyFailed, List.mem_append, ih, List.mem_cons]
    split_ifs with h
    · constructor
      · rintro (hx | ⟨t, ht, h1, h2, h3, h4⟩)
        · exact ⟨s, Or.inl rfl, h.1, h.2.1, h.2.2, hx⟩
        · exact ⟨t, Or.inr ht, h1, h2, h3, h4⟩
      · rintro ⟨t, rfl | ht, h1, h2, h3, h4⟩
        · exact Or.inl h4
        · exact Or.inr ⟨t, ht, h1, h2, h3, h4⟩
    · simp only [List.not_mem_nil, false_or]
      constructor
      · rintro ⟨t, ht, h1, h2, h3, h4⟩
        exact ⟨t, Or.inr ht, h1, h2, h3, h4⟩
      · rintro ⟨t, rfl | ht, h1, h2, h3, h4⟩
        · exact absurd ⟨h1, h2, h3⟩ h
        · exact ⟨t, ht, h1, h2, h3, h4⟩

theorem pendingOutChans_mem (l : List ExistingSwap) (x : ℕ) :
    x ∈ pendingOutChans l ↔
      ∃ s ∈ l, s.state.type = SwapStateType.pending ∧
        s.type = SwapType.typeOut ∧ x ∈ s.channels := by
  induction l with
  | nil => simp [pendingOutChans]
  | cons s rest ih =>
    simp only [pendingOutChans, List.mem_append, ih, List.mem_cons]
    split_ifs with h
    · constructor
      · rintro (hx | ⟨t, ht, h1, h2, h3⟩)
        · exact ⟨s, Or.inl rfl, h.1, h.2, hx⟩
        · exact ⟨t, Or.inr ht, h1, h2, h3⟩
      · rintro ⟨t, rfl | ht, h1, h2, h3⟩
        · exact Or.inl h3
        · exact Or.inr ⟨t, ht, h1, h2, h3⟩
    · simp only [List.not_mem_nil, false_or]
      constructor
      · rintro ⟨t, ht, h1, h2, h3⟩
        exact ⟨t, Or.inr ht, h1, h2, h3⟩
      · rintro ⟨t, rfl | ht, h1, h2, h3⟩
        · exact absurd ⟨h1, h2⟩ h
        · exact ⟨t, ht, h1, h2, h3⟩

theorem pendingInPeers_cons_none (s : ExistingSwap)
    (rest : List ExistingSwap) (hp : s.peer = none) :
    pendingInPeers (s :: rest) = pendingInPeers rest := by
  simp [pendingInPeers, hp]

theorem pendingInPeers_cons_some (s : ExistingSwap)
    (rest : List ExistingSwap) (q : ℕ) (hp : s.peer = some q) :
    pendingInPeers (s :: rest) =
      (if s.state.type = SwapStateType.pending ∧ s.type = SwapType.typeIn
        then [q] else []) ++ pendingInPeers rest := by
  simp [pendingInPeers, hp]

theorem pendingInPeers_mem (l : List ExistingSwap) (p : ℕ) :
    p ∈ pendingInPeers l ↔
      ∃ s ∈ l, s.state.type = SwapStateType.pending ∧
        s.type = SwapType.typeIn ∧ s.peer = some p := by
  induction l with
  | nil => simp [pendingInPeers]
  | cons s rest ih =>
    rcases hp : s.peer with _ | q
    · rw [pendingInPeers_cons_none s rest hp, ih]
      constructor
      · rintro ⟨t, ht, h1, h2, h3⟩
        exact ⟨t, List.mem_cons_of_mem s ht, h1, h2, h3⟩
      · rintro ⟨t, ht, h1, h2, h3⟩
        rcases List.mem_cons.mp ht with rfl | ht
        · rw [hp] at h3; exact absurd h3 (by simp)
        · exact ⟨t, ht, h1, h2, h3⟩
    · rw [pendingInPeers_cons_some s rest q hp]
      simp only [List.mem_append, ih, List.mem_cons]
      split_ifs with h
      · constructor
        · rintro (hx | ⟨t, ht, h1, h2, h3⟩)
          · simp only [List.mem_singleton] at hx
            exact ⟨s, Or.inl rfl, h.1, h.2, by rw [hp, hx]⟩
          · exact ⟨t, Or.inr ht, h1, h2, h3⟩
        · rintro ⟨t, rfl | ht, h1, h2, h3⟩
          · rw [hp] at h3
            simp only [Option.some.injEq] at h3
            exact Or.inl (by simp [h3])
          · exact Or.inr ⟨t, ht, h1, h2, h3⟩
      · simp only [List.not_mem_nil, false_or]
        constructor
        · rintro ⟨t, ht, h1, h2, h3⟩
          exact ⟨t, Or.inr ht, h1, h2, h3⟩
        · rintro ⟨t, rfl | ht, h1, h2, h3⟩
          · exact absurd ⟨h1, h2⟩ h
          · exact ⟨t, ht, h1, h2, h3⟩

/-! Unfolding equations for `buildPendingSets` on a cons cell, one per case
of the scanned swap. -/

theorem buildPendingSets_cons_notpending (s : ExistingSwap)
    (rest : List ExistingSwap)
    (h : s.state.type ≠ SwapStateType.pending) :
    buildPendingSets (s :: rest) = buildPendingSets rest := by
  simp [buildPendingSets, h]

theorem buildPendingSets_cons_in_none (s : ExistingSwap)
    (rest : List ExistingSwap)
    (h : s.state.type = SwapStateType.pending)
    (ht : s.type = SwapType.typeIn) (hp : s.peer = none) :
    buildPendingSets (s :: rest) = none := by
  simp [buildPendingSets, h, ht, hp]

theorem buildPendingSets_cons_in_some (s : ExistingSwap)
    (rest : List ExistingSwap) (q : ℕ)
    (h : s.state.type = SwapStateType.pending)
    (ht : s.type = SwapType.typeIn) (hp : s.peer = some q) :
    buildPendingSets (s :: rest) =
      (buildPendingSets rest).map (fun eo => (eo.1, q :: eo.2)) := by
  simp [buildPendingSets, h, ht, hp]

theorem buildPendingSets_cons_out_empty (s : ExistingSwap)
    (rest : List ExistingSwap)
    (h : s.state.type = SwapStateType.pending)
    (ht : s.type = SwapType.typeOut) (hc : s.channels = []) :
    buildPendingSets (s :: rest) = none := by
  simp [buildPendingSets, h, ht, hc]

theorem buildPendingSets_cons_out (s : ExistingSwap)
    (rest : List ExistingSwap)
    (h : s.state.type = SwapStateType.pending)
    (ht : s.type = SwapType.typeOut) (hc : s.channels ≠ []) :
    buildPendingSets (s :: rest) =
      (buildPendingSets rest).map (fun eo => (s.channels ++ eo.1, eo.2)) := by
  simp [buildPendingSets, h, ht, List.isEmpty_iff, hc]

theorem buildPendingSets_none_iff (l : List ExistingSwap) :
    buildPendingSets l = none ↔
      ∃ s ∈ l, s.state.type = SwapStateType.pending ∧ unrestrictedSwap s := by
  induction l with
  | nil => simp [buildPendingSets]
  | cons s rest ih =>
    by_cases h1 : s.state.type = SwapStateType.pending
    · rcases ht : s.type with _ | _
      · rcases hp : s.peer with _ | q
        · rw [buildPendingSets_cons_in_none s rest h1 ht hp]
          simp only [true_iff]
          exact ⟨s, List.mem_cons_self s rest, h1, Or.inl ⟨ht, hp⟩⟩
        · rw [buildPendingSets_cons_in_some s rest q h1 ht hp,
            Option.map_eq_none', ih]
          constructor
          · rintro ⟨t, htm, hpend, hu⟩
            exact ⟨t, List.mem_cons_of_mem s htm, hpend, hu⟩
          · rintro ⟨t, htm, hpend, hu⟩
            rcases List.mem_cons.mp htm with rfl | htm
            · rcases hu with ⟨_, hu2⟩ | ⟨hu1, _⟩
              · rw [hp] at hu2; exact absurd hu2 (by simp)
              · rw [ht] at hu1; exact absurd hu1 (by simp)
            · exact ⟨t, htm, hpend, hu⟩
      · by_cases hc : s.channels = []
        · rw [buildPendingSets_cons_out_empty s rest h1 ht hc]
          simp only [true_iff]
          exact ⟨s, List.mem_cons_self s rest, h1, Or.inr ⟨ht, hc⟩⟩
        · rw [buildPendingSets_cons_out s rest h1 ht hc,
            Option.map_eq_none', ih]
          constructor
          · rintro ⟨t, htm, hpend, hu⟩
            exact ⟨t, List.mem_cons_of_mem s htm, hpend, hu⟩
          · rintro ⟨t, htm, hpend, hu⟩
            rcases List.mem_cons.mp htm with rfl | htm
            · rcases hu with ⟨hu1, _⟩ | ⟨_, hu2⟩
              · rw [ht] at hu1; exact absurd hu1 (by simp)
              · exact absurd hu2 hc
            · exact ⟨t, htm, hpend, hu⟩
    · rw [buildPendingSets_cons_notpending s rest h1, ih]
      constructor
      · rintro ⟨t, ht, hp, hu⟩
        exact ⟨t, List.mem_cons_of_mem s ht, hp, hu⟩
      · rintro ⟨t, ht, hp, hu⟩
        rcases List.mem_cons.mp ht with rfl | ht
        · exact absurd hp h1
        · exact ⟨t, ht, hp, hu⟩

theorem buildPendingSets_some (l : List ExistingSwap)
    (pr : List ℕ × List ℕ) (h : buildPendingSets l = some pr) :
    pr.1 = pendingOutChans l ∧ pr.2 = pendingInPeers l := by
  induction l generalizing pr with
  | nil =>
    simp only [buildPendingSets, Option.some.injEq] at h
    subst h
    simp [pendingOutChans, pendingInPeers]
  | cons s rest ih =>
    by_cases h1 : s.state.type = SwapStateType.pending
    · rcases ht : s.type with _ | _
      · rcases hp : s.peer with _ | q
        · rw [buildPendingSets_cons_in_none s rest h1 ht hp] at h
          exact absurd h (by simp)
        · rw [buildPendingSets_cons_in_some s rest q h1 ht hp,
            Option.map_eq_some'] at h
          obtain ⟨pr', hrest, rfl⟩ := h
          obtain ⟨e1, e2⟩ := ih _ hrest
          constructor
          · simp [pendingOutChans, h1, ht, e1]
          · rw [pendingInPeers_cons_some s rest q hp, if_pos ⟨h1, ht⟩]
            simp [e2]
      · by_cases hc : s.channels = []
        · rw [buildPendingSets_cons_out_empty s rest h1 ht hc] at h
          exact absurd h (by simp)
        · rw [buildPendingSets_cons_out s rest h1 ht hc,
            Option.map_eq_some'] at h
          obtain ⟨pr', hrest, rfl⟩ := h
          obtain ⟨e1, e2⟩ := ih _ hrest
          constructor
          · simp [pendingOutChans, h1, ht, e1]
          · rcases hp : s.peer with _ | q
            · rw [pendingInPeers_cons_none s rest hp]
              simp [e2]
            · rw [pendingInPeers_cons_some s rest q hp,
                if_neg (by simp [ht])]
              simp [e2]
    · rw [buildPendingSets_cons_notpending s rest h1] at h
      obtain ⟨e1, e2⟩ := ih _ h
      constructor
      · simp [pendingOutChans, h1, e1]
      · rcases hp : s.peer with _ | q
        · rw [pendingInPeers_cons_none s rest hp]
          simp [e2]
        · rw [pendingInPeers_cons_some s rest q hp, if_neg (by simp [h1])]
          simp [e2]

/-- C4: `getEligibleChannels` returns the empty set as soon as any pending
swap is unrestricted; otherwise a channel is eligible iff it is not among
the channels of pending (restricted) loop outs, not recently failed, and its
peer is not among the last-hop peers of pending (restricted) loop ins. -/
theorem c4_getEligibleChannels_characterization (now backoff : ℤ)
    (allSwaps : List ExistingSwap) (channels : List ChannelInfo) :
    ((∃ s ∈ allSwaps, s.state.type = SwapStateType.pending ∧
        unrestrictedSwap s) →
      getEligibleChannels now backoff allSwaps channels = []) ∧
    ((∀ s ∈ allSwaps, s.state.type = SwapStateType.pending →
        ¬ unrestrictedSwap s) →
      ∀ c, c ∈ getEligibleChannels now backoff allSwaps channels ↔
        c ∈ channels ∧
        ¬ (∃ s ∈ allSwaps, s.state.type = SwapStateType.pending ∧
            s.type = SwapType.typeOut ∧ c.channelID ∈ s.channels) ∧
        ¬ (∃ s ∈ allSwaps, s.state = SwapState.failOffchainPayments ∧
            s.type = SwapType.typeOut ∧ now - backoff < s.lastUpdate ∧
            c.channelID ∈ s.channels) ∧
        ¬ (∃ s ∈ allSwaps, s.state.type = SwapStateType.pending ∧
            s.type = SwapType.typeIn ∧ s.peer = some c.pubKeyBytes)) := by
  constructor
  · intro hex
    have hnone := (buildPendingSets_none_iff allSwaps).mpr hex
    simp [getEligibleChannels, hnone]
  · intro hall c
    rcases hbp : buildPendingSets allSwaps with _ | pr
    · obtain ⟨s, hs, hpend, hu⟩ := (buildPendingSets_none_iff allSwaps).mp hbp
      exact absurd hu (hall s hs hpend)
    · obtain ⟨e1, e2⟩ := buildPendingSets_some allSwaps pr hbp
      simp only [getEligibleChannels, hbp, List.mem_filter, e1, e2,
        List.elem_eq_mem, decide_eq_true_eq, recentlyFailed_mem,
        pendingOutChans_mem, pendingInPeers_mem]
      tauto

/-- Witness for C4 with one restricted pending loop out on channel 1. -/
theorem c4_witness :
    (∀ s ∈ [swapPendingOut1],
      s.state.type = SwapStateType.pending → ¬ unrestrictedSwap s) ∧
    (∀ c, c ∈ getEligibleChannels 5 3 [swapPendingOut1]
        [chanInfo1, chanInfo2] ↔
      c ∈ [chanInfo1, chanInfo2] ∧
      ¬ (∃ s ∈ [swapPendingOut1],
          s.state.type = SwapStateType.pending ∧
          s.type = SwapType.typeOut ∧ c.channelID ∈ s.channels) ∧
      ¬ (∃ s ∈ [swapPendingOut1],
          s.state = SwapState.failOffchainPayments ∧
          s.type = SwapType.typeOut ∧ (5 : ℤ) - 3 < s.lastUpdate ∧
          c.channelID ∈ s.channels) ∧
      ¬ (∃ s ∈ [swapPendingOut1],
          s.state.type = SwapStateType.pending ∧
          s.type = SwapType.typeIn ∧ s.peer = some c.pubKeyBytes)) :=
  ⟨by decide,
    (c4_getEligibleChannels_characterization 5 3 [swapPendingOut1]
      [chanInfo1, chanInfo2]).2 (by decide)⟩

/-- C10: the failure-backoff comparison is strict — a channel is in the
recently-failed set iff some loop out in the off-chain-payment-failure state
lists it and was last updated *strictly after* `now - backoff`; so swaps in
other terminal states and failed loop ins never contribute, and a failed
loop out whose timestamp is exactly the cutoff (or older) leaves the listed
channels eligible. -/
theorem c10_failure_backoff_strict (now backoff : ℤ) :
    (∀ (allSwaps : List ExistingSwap) (x : ℕ),
      x ∈ recentlyFailed (now - backoff) allSwaps ↔
        ∃ s ∈ allSwaps, s.state = SwapState.failOffchainPayments ∧
          s.type = SwapType.typeOut ∧ now - backoff < s.lastUpdate ∧
          x ∈ s.channels) ∧
    (∀ (s : ExistingSwap) (channels : List ChannelInfo),
      s.state = SwapState.failOffchainPayments →
      s.type = SwapType.typeOut →
      s.lastUpdate ≤ now - backoff →
      getEligibleChannels now backoff [s] channels = channels) := by
  constructor
  · exact fun allSwaps x => recentlyFailed_mem (now - backoff) allSwaps x
  · intro s channels h1 h2 h3
    have hnp : s.state.type ≠ SwapStateType.pending := by
      rw [h1]; decide
    have hbp : buildPendingSets [s] = some ([], []) := by
      rw [buildPendingSets_cons_notpending s [] hnp]; rfl
    have hrf : recentlyFailed (now - backoff) [s] = [] := by
      simp only [recentlyFailed]
      rw [if_neg (fun hcond => absurd hcond.2.2 (not_lt.mpr h3))]
      rfl
    simp [getEligibleChannels, hbp, hrf]

/-- Witness for C10: a loop out that failed off chain exactly at the cutoff
leaves both listed channels eligible. -/
theorem c10_witness :
    (swapFailedOut1.state = SwapState.failOffchainPayments ∧
      swapFailedOut1.type = SwapType.typeOut ∧
      swapFailedOut1.lastUpdate ≤ (5 : ℤ) - 5) ∧
    getEligibleChannels 5 5 [swapFailedOut1] [chanInfo1, chanInfo2] =
      [chanInfo1, chanInfo2] :=
  ⟨⟨rfl, rfl, by decide⟩,
    (c10_failure_backoff_strict 5 5).2 swapFailedOut1 [chanInfo1, chanInfo2]
      rfl rfl (by decide)⟩

/-- C5 counterexample: the per-channel-rules manager's `SuggestSwaps`,
called with no rule configured, returns `(nil, nil)` — an *ok* result with
no suggestions, not an error — refuting the claim that the call fails with
an error. -/
theorem c5_counterexample :
    (SuggestSwapsV1 [] envV1Trivial).1 = Except.ok [] ∧
    ∀ e, (SuggestSwapsV1 [] envV1Trivial).1 ≠ Except.error e := by
  refine ⟨rfl, fun e he => ?_⟩
  rw [show (SuggestSwapsV1 [] envV1Trivial).1 = Except.ok [] from rfl] at he
  exact Except.noConfusion he

/-- C5 (amended): with no rule configured, the per-channel-rules manager's
`SuggestSwaps` returns immediately with no suggestions, a nil error and no
external calls; the node/peer variant's suggestion request does fail with
`ErrNoRules`, but only after the event loop has performed its one external
call, the channel listing. -/
theorem c5_suggestSwaps_no_rules :
    (∀ env : EnvV1, SuggestSwapsV1 [] env = (Except.ok [], [])) ∧
    (∀ (p : ParametersNP) (cfg : ConfigNP),
      p.nodeRule = none → p.peerRule = none →
      (∀ e, cfg.listChannels = Except.error e →
        handleSuggestionRequest p cfg =
          (Except.error e, [ExtCall.listChannels])) ∧
      (∀ chans, cfg.listChannels = Except.ok chans →
        handleSuggestionRequest p cfg =
          (Except.error Err.noRules, [ExtCall.listChannels]))) := by
  refine ⟨fun env => rfl, fun p cfg hn hp => ⟨fun e he => ?_, fun chans hc => ?_⟩⟩
  · simp [handleSuggestionRequest, he]
  · simp [handleSuggestionRequest, hc, suggestSwapsNP, hn, hp]

/-- Witness for C5 on the node/peer variant with empty parameters. -/
theorem c5_witness :
    (paramsNPEmpty.nodeRule = none ∧ paramsNPEmpty.peerRule = none ∧
      cfgNPTrivial.listChannels = Except.ok []) ∧
    handleSuggestionRequest paramsNPEmpty cfgNPTrivial =
      (Except.error Err.noRules, [ExtCall.listChannels]) :=
  ⟨⟨rfl, rfl, rfl⟩,
    (c5_suggestSwaps_no_rules.2 paramsNPEmpty cfgNPTrivial rfl rfl).2 [] rfl⟩

/-! Lemmas for the fee-limit check and the suggestion loop. -/

theorem ppmToSat_eq (a ppm : ℤ) (ha : 0 ≤ a) (hp : 0 ≤ ppm)
    (ha' : a < 2 ^ 64) (hp' : ppm < 2 ^ 64) (hprod : a * ppm < 2 ^ 64) :
    ppmToSat a ppm = a * ppm / 1000000 := by
  obtain ⟨n, rfl⟩ := Int.eq_ofNat_of_zero_le ha
  obtain ⟨m, rfl⟩ := Int.eq_ofNat_of_zero_le hp
  have hcast : (n : ℤ) * (m : ℤ) = ((n * m : ℕ) : ℤ) := by push_cast; ring
  have hnm : n * m < 2 ^ 64 := by
    have := hprod
    rw [hcast] at this
    exact_mod_cast this
  simp only [ppmToSat, toUInt64Nat, ofUInt64]
  rw [Int.emod_eq_of_lt (by positivity) ha',
    Int.emod_eq_of_lt (by positivity) hp', Int.toNat_natCast,
    Int.toNat_natCast, Nat.mod_eq_of_lt hnm, hcast]
  generalize n * m = k at hnm ⊢
  have hdiv : k / 1000000 < 2 ^ 63 := by omega
  rw [if_pos hdiv]
  omega

theorem suggestLoop_eq_filterMap (p : ParametersFull)
    (outRestrictions : Restrictions)
    (quote : ℤ → ℤ → Except Err (ℤ × ℤ × ℤ))
    (hq : ∀ a ct, (quote a ct).isOk = true) (l : List ChannelInfo) :
    suggestLoop p outRestrictions quote l =
      .ok (l.filterMap (passingSuggestion p outRestrictions quote)) := by
  induction l with
  | nil => rfl
  | cons channel rest ih =>
    simp only [suggestLoop, passingSuggestion, List.filterMap_cons]
    rcases hlk : lookupRule p.channelRules channel.channelID with _ | rule <;>
      try dsimp only
    · exact ih
    · rcases hsg : rule.suggestSwap (newBalances channel) outRestrictions
        with _ | suggestion <;> try dsimp only
      · exact ih
      · rcases hqt : quote suggestion.amount p.confTarget with e | fees <;>
          try dsimp only
        · have := hq suggestion.amount p.confTarget
          rw [hqt] at this
          simp [Except.isOk, Except.toBool] at this
        · rcases hck : checkFeeLimits p fees.1 fees.2.1 fees.2.2 suggestion
            with _ | err <;> try dsimp only
          · rw [ih]
          · exact ih

/-- C7: `checkFeeLimits` succeeds iff the quoted server fee is within
`amount * maxSwapFeePPM / 1e6` (integer arithmetic) and the quoted miner fee
and prepay are within their configured maxima, each violated bound yielding
its distinct error; and within `SuggestSwaps`, when the external calls
succeed, a recommendation whose quote fails a fee check is dropped from the
returned list without failing the call, the others being kept. -/
theorem c7_fee_limits (p : ParametersFull) (swapFee minerFee prepay : ℤ)
    (suggestion : LoopOutRecommendation)
    (ha : 0 ≤ suggestion.amount) (hp : 0 ≤ p.maximumSwapFeePPM)
    (ha' : suggestion.amount < 2 ^ 64)
    (hp' : p.maximumSwapFeePPM < 2 ^ 64)
    (hprod : suggestion.amount * p.maximumSwapFeePPM < 2 ^ 64) :
    ((checkFeeLimits p swapFee minerFee prepay suggestion = none ↔
        swapFee ≤ suggestion.amount * p.maximumSwapFeePPM / 1000000 ∧
        minerFee ≤ p.maximumMinerFee ∧ prepay ≤ p.maximumPrepay) ∧
      (suggestion.amount * p.maximumSwapFeePPM / 1000000 < swapFee →
        checkFeeLimits p swapFee minerFee prepay suggestion =
          some Err.insufficientSwapFee) ∧
      (swapFee ≤ suggestion.amount * p.maximumSwapFeePPM / 1000000 →
        p.maximumMinerFee < minerFee →
        checkFeeLimits p swapFee minerFee prepay suggestion =
          some Err.insufficientMinerFee) ∧
      (swapFee ≤ suggestion.amount * p.maximumSwapFeePPM / 1000000 →
        minerFee ≤ p.maximumMinerFee → p.maximumPrepay < prepay →
        checkFeeLimits p swapFee minerFee prepay suggestion =
          some Err.insufficientPrepay)) ∧
    (∀ (env : EnvFull) (now : ℤ) (outRestrictions : Restrictions)
        (allSwaps : List ExistingSwap) (channels : List ChannelInfo),
      p.channelRules ≠ [] →
      env.loopOutRestrictions = .ok outRestrictions →
      env.listSwaps = .ok allSwaps →
      env.listChannels = .ok channels →
      (∀ a ct, (env.loopOutQuote a ct).isOk = true) →
      SuggestSwapsFull p env now =
        .ok ((getEligibleChannels now p.failureBackOff allSwaps
            channels).filterMap
          (passingSuggestion p outRestrictions env.loopOutQuote))) := by
  have hfee := ppmToSat_eq suggestion.amount p.maximumSwapFeePPM
    ha hp ha' hp' hprod
  constructor
  · simp only [checkFeeLimits, hfee]
    refine ⟨?_, fun h1 => ?_, fun h1 h2 => ?_, fun h1 h2 h3 => ?_⟩
    · split_ifs with g1 g2 g3 <;>
        constructor <;> intro hcl <;> first | omega | simp_all
    · rw [if_pos (by omega)]
    · rw [if_neg (by omega), if_pos (by omega)]
    · rw [if_neg (by omega), if_neg (by omega), if_pos (by omega)]
  · intro env now outRestrictions allSwaps channels hrules hout hswaps
      hchans hq
    have hne : p.channelRules.isEmpty = false := by
      rcases h : p.channelRules with _ | _
      · exact absurd h hrules
      · rfl
    simp only [SuggestSwapsFull, hne, Bool.false_eq_true, if_false, hout,
      hswaps, hchans]
    exact suggestLoop_eq_filterMap p outRestrictions env.loopOutQuote hq _

/-- Witness for C7: a swap fee of `501` against allowed `500` is rejected
with the server-fee error, and the full pipeline on one eligible channel
returns exactly the passing suggestions. -/
theorem c7_witness :
    ((0 : ℤ) ≤ recommendation1.amount ∧
      (0 : ℤ) ≤ paramsFull1.maximumSwapFeePPM ∧
      recommendation1.amount < 2 ^ 64 ∧
      paramsFull1.maximumSwapFeePPM < 2 ^ 64 ∧
      recommendation1.amount * paramsFull1.maximumSwapFeePPM < 2 ^ 64 ∧
      paramsFull1.channelRules ≠ [] ∧
      (∀ a ct, (envFull1.loopOutQuote a ct).isOk = true)) ∧
    (recommendation1.amount * paramsFull1.maximumSwapFeePPM / 1000000 <
        501 →
      checkFeeLimits paramsFull1 501 400 50 recommendation1 =
        some Err.insufficientSwapFee) ∧
    SuggestSwapsFull paramsFull1 envFull1 0 =
      .ok ((getEligibleChannels 0 paramsFull1.failureBackOff []
          [chanInfo1]).filterMap
        (passingSuggestion paramsFull1 (NewRestrictions 1 10000)
          envFull1.loopOutQuote)) :=
  ⟨⟨by norm_num [recommendation1, newLoopOutRecommendation],
      by norm_num [paramsFull1],
      by norm_num [recommendation1, newLoopOutRecommendation],
      by norm_num [paramsFull1],
      by norm_num [recommendation1, newLoopOutRecommendation, paramsFull1],
      by simp [paramsFull1], fun a ct => rfl⟩,
    (c7_fee_limits paramsFull1 501 400 50 recommendation1
      (by norm_num [recommendation1, newLoopOutRecommendation])
      (by norm_num [paramsFull1])
      (by norm_num [recommendation1, newLoopOutRecommendation])
      (by norm_num [paramsFull1])
      (by norm_num [recommendation1, newLoopOutRecommendation,
        paramsFull1])).1.2.1,
    (c7_fee_limits paramsFull1 501 400 50 recommendation1
      (by norm_num [recommendation1, newLoopOutRecommendation])
      (by norm_num [paramsFull1])
      (by norm_num [recommendation1, newLoopOutRecommendation])
      (by norm_num [paramsFull1])
      (by norm_num [recommendation1, newLoopOutRecommendation,
        paramsFull1])).2 envFull1 0 (NewRestrictions 1 10000) [] [chanInfo1]
      (by simp [paramsFull1]) rfl rfl rfl (fun a ct => rfl)⟩

/-! Lemmas about the heap model of `cloneParameters`. -/

theorem cloneParameters_next (h : Heap) (p : ParamsRepr) :
    (cloneParameters h p).1.next = h.next + p.length := by
  induction p generalizing h with
  | nil => simp [cloneParameters]
  | cons ca rest ih =>
    simp only [cloneParameters, List.length_cons]
    rw [ih]
    dsimp only
    omega

theorem cloneParameters_mem_lt (h : Heap) (p : ParamsRepr) (x : ℕ)
    (hx : x < h.next) : (cloneParameters h p).1.mem x = h.mem x := by
  induction p generalizing h with
  | nil => rfl
  | cons ca rest ih =>
    simp only [cloneParameters]
    rw [ih _ (by dsimp only; omega)]
    dsimp only
    rw [if_neg (by omega)]

theorem cloneParameters_addrs (h : Heap) (p : ParamsRepr) :
    ∀ ca ∈ (cloneParameters h p).2,
      h.next ≤ ca.2 ∧ ca.2 < (cloneParameters h p).1.next := by
  induction p generalizing h with
  | nil => simp [cloneParameters]
  | cons ca rest ih =>
    intro cb hcb
    rw [cloneParameters_next]
    simp only [cloneParameters, List.mem_cons] at hcb
    rcases hcb with rfl | hcb
    · dsimp only
      simp only [List.length_cons]
      omega
    · have hr := ih _ _ hcb
      rw [cloneParameters_next] at hr
      dsimp only at hr
      simp only [List.length_cons]
      omega

theorem readParams_congr (h h' : Heap) (p : ParamsRepr)
    (hmem : ∀ ca ∈ p, h'.mem ca.2 = h.mem ca.2) :
    readParams h' p = readParams h p := by
  simp only [readParams]
  exact List.map_congr_left (fun ca hca => by rw [hmem ca hca])

theorem cloneParameters_read (h : Heap) (p : ParamsRepr)
    (hwf : ∀ ca ∈ p, ca.2 < h.next) :
    readParams (cloneParameters h p).1 (cloneParameters h p).2 =
      readParams h p := by
  induction p generalizing h with
  | nil => rfl
  | cons ca rest ih =>
    simp only [cloneParameters, readParams, List.map_cons,
      List.cons.injEq, Prod.mk.injEq]
    refine ⟨⟨trivial, ?_⟩, ?_⟩
    · rw [cloneParameters_mem_lt _ _ _ (by dsimp only; omega)]
      simp
    · have hrest := ih
        { next := h.next + 1
          mem := fun x => if x = h.next then h.mem ca.2 else h.mem x }
        (fun cb hcb => by
          have := hwf cb (List.mem_cons_of_mem ca hcb)
          show cb.2 < h.next + 1
          omega)
      simp only [readParams] at hrest
      rw [hrest]
      exact List.map_congr_left (fun cb hcb => by
        have := hwf cb (List.mem_cons_of_mem ca hcb)
        congr 1
        show (if cb.2 = h.next then h.mem ca.2 else h.mem cb.2) =
          h.mem cb.2
        rw [if_neg (by omega)])

theorem readParams_write_notmem (h : Heap) (p : ParamsRepr) (a : ℕ)
    (v : ThresholdRule) (ha : ∀ ca ∈ p, ca.2 ≠ a) :
    readParams (writeHeap h a v) p = readParams h p := by
  apply readParams_congr
  intro ca hca
  simp only [writeHeap]
  rw [if_neg (ha ca hca)]

theorem validateParams_eq_none_iff (l : List (ℕ × ThresholdRule)) :
    validateParams l = none ↔ paramsValid l := by
  induction l with
  | nil => simp [validateParams, paramsValid]
  | cons cr rest ih =>
    simp only [validateParams, paramsValid, List.mem_cons]
    split_ifs with h0
    · constructor
      · intro h; exact absurd h (by simp)
      · intro h
        exact absurd h0 (h cr (Or.inl rfl)).1
    · rcases hv : cr.2.validate with _ | e
      · rw [ih]
        constructor
        · intro h t ht
          rcases ht with rfl | ht
          · exact ⟨h0, hv⟩
          · exact h t ht
        · intro h t ht
          exact h t (Or.inr ht)
      · constructor
        · intro h; exact absurd h (by simp)
        · intro h
          have := (h cr (Or.inl rfl)).2
          rw [hv] at this
          exact absurd this (by simp)

/-- C8: `SetParameters` fails exactly on invalid parameters — a zero channel
id or a channel rule with a threshold outside `[0,1]` or thresholds summing
to `≥ 1` (and, in the node/peer variant, both a node and a peer rule set or
a set rule invalid) — leaving the stored configuration untouched on failure
and replacing it wholesale (by value) on success. -/
theorem c8_setParameters_validation (m : Manager) (P : ParamsRepr)
    (hwf : ∀ ca ∈ P, ca.2 < m.heap.next) :
    (((SetParameters m P).1 = none ↔ paramsValid (readParams m.heap P)) ∧
      ((SetParameters m P).1 ≠ none → (SetParameters m P).2 = m) ∧
      ((SetParameters m P).1 = none →
        readParams (SetParameters m P).2.heap
            (SetParameters m P).2.params =
          readParams m.heap P)) ∧
    (∀ r : ThresholdRule, r.validate = none ↔
      (0 ≤ r.minimumIncoming ∧ r.minimumIncoming ≤ 1 ∧
        0 ≤ r.minimumOutgoing ∧ r.minimumOutgoing ≤ 1 ∧
        r.minimumIncoming + r.minimumOutgoing < 1)) ∧
    (∀ np : ParametersNP, np.validate = none ↔
      (¬ (np.nodeRule.isSome ∧ np.peerRule.isSome) ∧
        (∀ r, np.nodeRule = some r → r.validate = none) ∧
        (∀ r, np.peerRule = some r → r.validate = none))) := by
  refine ⟨?_, ?_, ?_⟩
  · rcases hv : validateParams (readParams m.heap P) with _ | e
    · refine ⟨?_, ?_, ?_⟩
      · simp only [SetParameters, hv]
        simp [(validateParams_eq_none_iff _).mp hv]
      · intro hne
        exact absurd (by simp [SetParameters, hv]) hne
      · intro _
        simp only [SetParameters, hv]
        exact cloneParameters_read m.heap P hwf
    · refine ⟨?_, ?_, ?_⟩
      · simp only [SetParameters, hv]
        rw [← validateParams_eq_none_iff, hv]
      · intro _
        simp [SetParameters, hv]
      · intro hnone
        rw [show (SetParameters m P).1 = some e from by
          simp [SetParameters, hv]] at hnone
        exact absurd hnone (by simp)
  · intro r
    simp only [ThresholdRule.validate]
    split_ifs with g1 g2 g3
    · constructor
      · intro hh; exact absurd hh (by simp)
      · rintro ⟨b1, b2, _⟩
        rcases g1 with g | g <;> linarith
    · constructor
      · intro hh; exact absurd hh (by simp)
      · rintro ⟨_, _, b3, b4, _⟩
        rcases g2 with g | g <;> linarith
    · constructor
      · intro hh; exact absurd hh (by simp)
      · rintro ⟨_, _, _, _, b5⟩
        linarith
    · push_neg at g1 g2
      constructor
      · intro _
        exact ⟨g1.1, g1.2, g2.1, g2.2, lt_of_not_ge g3⟩
      · intro _
        rfl
  · intro np
    rcases hn : np.nodeRule with _ | rn <;>
      rcases hpr : np.peerRule with _ | rp
    · simp [ParametersNP.validate, hn, hpr]
    · simp only [ParametersNP.validate, hn, hpr]
      rcases hv : rp.validate with _ | e <;> simp [hv]
    · simp only [ParametersNP.validate, hn, hpr]
      rcases hv : rn.validate with _ | e <;> simp [hv]
    · simp [ParametersNP.validate, hn, hpr]

/-- Witness for C8: a valid one-rule parameter set is accepted. -/
theorem c8_witness :
    (∀ ca ∈ reprP0, ca.2 < manager0.heap.next) ∧
    ((SetParameters manager0 reprP0).1 = none ↔
      paramsValid (readParams manager0.heap reprP0)) :=
  ⟨by decide,
    (c8_setParameters_validation manager0 reprP0 (by decide)).1.1⟩

/-- C9: after a successful `SetParameters(P)`, `GetParameters` returns a
value equal to `P`; writing through any rule pointer of the returned copy
does not change the stored configuration (so a subsequent `GetParameters`,
whose value is always the stored view, is unaffected), and writing through
`P`'s own rule pointers after the call does not change the stored
configuration either. -/
theorem c9_parameters_deep_copy (m : Manager) (P : ParamsRepr)
    (_hwfm : m.wf) (hwfP : ∀ ca ∈ P, ca.2 < m.heap.next)
    (hok : (SetParameters m P).1 = none) :
    (∀ m' : Manager, m'.wf →
      readParams (GetParameters m').2.heap (GetParameters m').1 =
        readParams m'.heap m'.params) ∧
    readParams (GetParameters (SetParameters m P).2).2.heap
        (GetParameters (SetParameters m P).2).1 =
      readParams m.heap P ∧
    (∀ a ∈ reprAddrs (GetParameters (SetParameters m P).2).1, ∀ v,
      readParams
          (writeHeap (GetParameters (SetParameters m P).2).2.heap a v)
          (GetParameters (SetParameters m P).2).2.params =
        readParams (GetParameters (SetParameters m P).2).2.heap
          (GetParameters (SetParameters m P).2).2.params) ∧
    (∀ a ∈ reprAddrs P, ∀ v,
      readParams (writeHeap (SetParameters m P).2.heap a v)
          (SetParameters m P).2.params =
        readParams (SetParameters m P).2.heap
          (SetParameters m P).2.params) := by
  have hget : ∀ m' : Manager, m'.wf →
      readParams (GetParameters m').2.heap (GetParameters m').1 =
        readParams m'.heap m'.params :=
    fun m' hwf' => cloneParameters_read m'.heap m'.params hwf'
  have hv : validateParams (readParams m.heap P) = none := by
    rcases hv : validateParams (readParams m.heap P) with _ | e
    · rfl
    · rw [show (SetParameters m P).1 = some e from by
        simp [SetParameters, hv]] at hok
      exact absurd hok (by simp)
  have hm1 : (SetParameters m P).2 =
      { heap := (cloneParameters m.heap P).1
        params := (cloneParameters m.heap P).2 } := by
    simp [SetParameters, hv]
  have hwf1 : (SetParameters m P).2.wf := by
    rw [hm1]
    intro ca hca
    exact (cloneParameters_addrs m.heap P ca hca).2
  refine ⟨hget, ?_, ?_, ?_⟩
  · rw [hget (SetParameters m P).2 hwf1, hm1]
    exact cloneParameters_read m.heap P hwfP
  · intro a ha v
    apply readParams_write_notmem
    intro ca hca
    simp only [reprAddrs, List.mem_map] at ha
    obtain ⟨cb, hcb, rfl⟩ := ha
    have hb := cloneParameters_addrs (SetParameters m P).2.heap
      (SetParameters m P).2.params cb hcb
    have hc : ca.2 < (SetParameters m P).2.heap.next := hwf1 ca hca
    omega
  · intro a ha v
    rw [hm1]
    apply readParams_write_notmem
    intro ca hca
    have hb := cloneParameters_addrs m.heap P ca hca
    simp only [reprAddrs, List.mem_map] at ha
    obtain ⟨cb, hcb, rfl⟩ := ha
    have hc : cb.2 < m.heap.next := hwfP cb hcb
    omega

/-- Witness for C9: setting the one-rule parameters of the concrete manager
and reading them back yields the same value. -/
theorem c9_witness :
    (manager0.wf ∧ (∀ ca ∈ reprP0, ca.2 < manager0.heap.next) ∧
      (SetParameters manager0 reprP0).1 = none) ∧
    readParams (GetParameters (SetParameters manager0 reprP0).2).2.heap
        (GetParameters (SetParameters manager0 reprP0).2).1 =
      readParams manager0.heap reprP0 :=
  ⟨⟨(by
      intro ca hca
      simp only [manager0, List.mem_singleton] at hca
      subst hca
      norm_num [manager0, heap0]),
    (by decide),
    (by norm_num [SetParameters, validateParams, readParams, reprP0,
        manager0, heap0, ThresholdRule.validate, NewThresholdRule])⟩,
    (c9_parameters_deep_copy manager0 reprP0
      (by
        intro ca hca
        simp only [manager0, List.mem_singleton] at hca
        subst hca
        norm_num [manager0, heap0])
      (by decide)
      (by norm_num [SetParameters, validateParams, readParams, reprP0,
        manager0, heap0, ThresholdRule.validate,
        NewThresholdRule])).2.1⟩

end Loop
